import Mathlib

set_option maxHeartbeats 1000000

/-!
Shallow embedding of the run-orchestration and metric-aggregation core of the
docker-experiments-tracking repository (files tracking/experiment_metrics.py,
tracking/parse_functions.py, tracking/experiment_runner.py and
tracking/experiment_tracker.py), together with proofs of the behavioural
properties claimed by its design specification.

Modelling conventions: Python dicts whose insertion order matters are
modelled as insertion-ordered association lists; floats are modelled as
rationals; calls to the external tracking backend and the external
experiment process are modelled as emitted events; wall-clock durations
returned by the experiment process are supplied by an oracle function.
-/

/-- One parsed metric file, i.e. the YAML dictionary handed to a
metric-type handler: a type tag, a metric name, parallel x/y value
sequences and axis labels (network sizes are integers, samples rationals). -/
structure MetricRecord where
  mtype : String
  name : String
  xValues : List Int
  yValues : List ℚ
  xAxis : String
  yAxis : String
  deriving DecidableEq

/-- The aggregator's persistent buffer network_size.metrics_storage:
a Python dict from metric name to the list of buffered records, modelled
as an insertion-ordered association list. -/
abbrev MetricsStorage := List (String × List MetricRecord)

/-- metrics_storage[metric_name].append(metrics), creating the entry
(at the end, as dict insertion does) when the key is absent. -/
def storageAppend (s : MetricsStorage) (n : String) (r : MetricRecord) : MetricsStorage :=
  if s.any (fun p => p.1 == n) then
    s.map (fun p => if p.1 == n then (p.1, p.2 ++ [r]) else p)
  else
    s ++ [(n, [r])]

/-- metrics_storage.get(metric_name, None). -/
def storageGet (s : MetricsStorage) (n : String) : Option (List MetricRecord) :=
  (s.find? (fun p => p.1 == n)).map Prod.snd

/-- del metrics_storage[metric_name]. -/
def storageDel (s : MetricsStorage) (n : String) : MetricsStorage :=
  s.filter (fun p => p.1 != n)

/-- zip(m["x-values"], m["y-values"]): the (x, y) sample pairs of one record
(Python zip truncates to the shorter sequence, as List.zip does). -/
def recordPairs (m : MetricRecord) : List (Int × ℚ) :=
  m.xValues.zip m.yValues

/-- The body of the grouping loop: append y to metrics_aggregate[x],
creating the entry when x is not yet a key. -/
def addPair (agg : List (Int × List ℚ)) (p : Int × ℚ) : List (Int × List ℚ) :=
  if agg.any (fun q => q.1 == p.1) then
    agg.map (fun q => if q.1 == p.1 then (q.1, q.2 ++ [p.2]) else q)
  else
    agg ++ [(p.1, [p.2])]

/-- The metrics_aggregate dict built by the double loop
"for m in metrics_list: for (x, y) in zip(...)" before the means are taken. -/
def buildAggregate (ms : List MetricRecord) : List (Int × List ℚ) :=
  ms.foldl (fun agg m => (recordPairs m).foldl addPair agg) []

/-- np.mean of a list of samples: sum divided by length. -/
def listMean (l : List ℚ) : ℚ := l.sum / (l.length : ℚ)

/-- metrics_aggregate after the mean-taking loop: every per-x sample list
replaced by its arithmetic mean. -/
def aggMeans (ms : List MetricRecord) : List (Int × ℚ) :=
  (buildAggregate ms).map (fun q => (q.1, listMean q.2))

/-- The avg_across_size accumulator loop: running (sum, count) over the
per-x means. -/
def avgAccum (agg : List (Int × ℚ)) : ℚ × ℚ :=
  agg.foldl (fun acc q => (acc.1 + q.2, acc.2 + 1)) (0, 0)

/-- metrics_avg = avg_across_size[0] / avg_across_size[1]. -/
def metricsAvg (ms : List MetricRecord) : ℚ :=
  (avgAccum (aggMeans ms)).1 / (avgAccum (aggMeans ms)).2

/-- One wandb_run.log call: either a named scalar write (with its commit
flag) or a line-series chart write. -/
inductive WandbLog where
  | scalar (name : String) (value : ℚ) (commit : Bool)
  | series (name : String) (xs : List Int) (ys : List ℚ) (key : String)
      (title : String) (xname : String)
  deriving DecidableEq

/-- The flush-and-emit step of network_size once the last file is reached:
one "<name>_at_<x>" scalar per distinct x (commit=False), one "<name>_avg"
scalar (commit=True), and optionally the "<name>_series" chart. -/
def flushLogs (metricName : String) (ms : List MetricRecord) (current : MetricRecord)
    (lineseries : Bool) (groupId : String) : List WandbLog :=
  let agg := aggMeans ms
  (agg.map fun q => WandbLog.scalar (metricName ++ "_at_" ++ toString q.1) q.2 false)
    ++ [WandbLog.scalar (metricName ++ "_avg") (metricsAvg ms) true]
    ++ (if lineseries then
          [WandbLog.series (metricName ++ "_series") (agg.map Prod.fst) (agg.map Prod.snd)
            groupId current.yAxis current.xAxis]
        else [])

/-- The network_size handler, one call: buffer the record under its name;
when last_file is False stop there; when True take the buffered list out of
the storage (the None guard of metrics_storage.get is kept) and emit the
aggregate logs.  Returns the new storage and the logs emitted. -/
def networkSize (s : MetricsStorage) (r : MetricRecord) (lineseries : Bool)
    (groupId : String) (lastFile : Bool) : MetricsStorage × List WandbLog :=
  let s1 := storageAppend s r.name r
  if lastFile then
    match storageGet s1 r.name with
    | none => (s1, [])
    | some lst => (storageDel s1 r.name, flushLogs r.name lst r lineseries groupId)
  else (s1, [])

/-- A sequence of network_size calls in one process, threading the
persistent storage and concatenating the emitted logs. -/
def ingestSeq (lineseries : Bool) (groupId : String) :
    MetricsStorage → List (MetricRecord × Bool) → MetricsStorage × List WandbLog
  | s, [] => (s, [])
  | s, rb :: rest =>
    let step := networkSize s rb.1 lineseries groupId rb.2
    let next := ingestSeq lineseries groupId step.1 rest
    (next.1, step.2 ++ next.2)

/-- Key-based lookup in a name-keyed dispatch table (Python dict.get(k, None)). -/
def dictGet {α : Type} (tab : List (String × α)) (k : String) : Option α :=
  (tab.find? (fun p => p.1 == k)).map Prod.snd

/-- The metric-type handlers known to experiment_metrics.py. -/
inductive MetricTypeHandler where
  | networkSizeHandler
  deriving DecidableEq

/-- The metric_type_handling dispatch dict. -/
def metric_type_handling : List (String × MetricTypeHandler) :=
  [("network-size", MetricTypeHandler.networkSizeHandler)]

/-- os.path.join for one component. -/
def pathJoin (a b : String) : String := a ++ "/" ++ b

/-- str.endswith: suffix test on the character sequence. -/
def strEndsWith (s suff : String) : Bool := suff.data.isSuffixOf s.data

/-- One directory entry seen by default_parse_metrics: its file name,
whether it is a regular file, and the metric dictionary its YAML parses to. -/
structure MetricsFile where
  fname : String
  isFile : Bool
  content : MetricRecord
  deriving DecidableEq

/-- The observable actions of default_parse_metrics: the unsupported-type
warning, or a call into a metric-type handler. -/
inductive ParseEvent where
  | warnUnsupported (filepath : String) (mtype : String)
  | handleCall (handler : MetricTypeHandler) (record : MetricRecord) (lastFile : Bool)
  deriving DecidableEq

/-- The per-file body of the default_parse_metrics loop: skip non-files and
non-.yaml paths, warn and skip on an unsupported type tag, otherwise call
the looked-up handler with the record and the last_file flag. -/
def parseFileEvents (dirpath : String) (f : MetricsFile) (lastFile : Bool) : List ParseEvent :=
  let filepath := pathJoin dirpath f.fname
  if !f.isFile || !(strEndsWith filepath ".yaml") then []
  else
    match dictGet metric_type_handling f.content.mtype with
    | none => [ParseEvent.warnUnsupported filepath f.content.mtype]
    | some h => [ParseEvent.handleCall h f.content lastFile]

/-- default_parse_metrics over the listing of one metrics directory. -/
def default_parse_metrics (dirpath : String) (lastFile : Bool) :
    List MetricsFile → List ParseEvent
  | [] => []
  | f :: fs => parseFileEvents dirpath f lastFile ++ default_parse_metrics dirpath lastFile fs

/-- The "--key=value" tokens produced for a dict of arguments. -/
def configTokens (config : List (String × String)) : List String :=
  config.map (fun kv => "--" ++ kv.1 ++ "=" ++ kv.2)

/-- The command list built by run_single_experiment, appended in source
order: interpreter and script, metrics dir, optional log path, optional
artifacts dir, the static EXP_ARGS block, then the configuration tokens
and the run-scoped out_of_config tokens. -/
def run_single_experiment_cmd (script expArgs : String) (config : List (String × String))
    (metricsDirpath : String) (logFilepath : Option String) (artifactsDirpath : Option String)
    (outOfConfig : List (String × String)) : List String :=
  let cmd := ["bash", script]
  let cmd1 := cmd ++ [metricsDirpath]
  let cmd2 := match logFilepath with
    | some p => cmd1 ++ [p]
    | none => cmd1
  let cmd3 := match artifactsDirpath with
    | some p => cmd2 ++ [p]
    | none => cmd2
  let cmd4 := cmd3 ++ [expArgs]
  let cmd5 := cmd4 ++ configTokens config
  cmd5 ++ configTokens outOfConfig

/-- The metrics half of run_parse_functions: the loop
"for i, d in enumerate(metrics_dirlist)" calling the metrics parse routine
on d with terminal flag (i == len(metrics_dirlist) - 1).  The index is
threaded explicitly; total is the full list length. -/
def runParseCallsAux (total : Nat) : Nat → List String → List (String × Bool)
  | _, [] => []
  | i, d :: ds => (d, i == total - 1) :: runParseCallsAux total (i + 1) ds

/-- The list of (directory, terminal-flag) calls run_parse_functions makes
to the metrics parse routine. -/
def runParseMetricsCalls (dirs : List String) : List (String × Bool) :=
  runParseCallsAux dirs.length 0 dirs

/-- The configuration held by a RunWrapperSweep object. -/
structure SweepWrapper where
  groupId : String
  runsPerSweep : Nat
  metricsDirpath : String
  logDirpath : Option String
  artifactsDirpath : Option String
  deriving DecidableEq

/-- The observable actions of a run-wrapper lifecycle: an external
experiment invocation, the output-parsing dispatch, a scalar log, the
final wandb_run.finish. -/
inductive TrackEvent where
  | invoke (cmd : List String) (metricsDir : String) (logFile : Option String)
      (artifactsDir : Option String)
  | parseDispatch (metricsDirs : List String) (logFiles : List String)
      (artifactsDirs : List String)
  | logScalar (name : String) (value : ℚ)
  | finish
  deriving DecidableEq

/-- The repetition directory tag: the group id, then _run_, then the
tracked-run id, then _ and the repetition index. -/
def sweepRunTag (w : SweepWrapper) (runId : String) (i : Nat) : String :=
  w.groupId ++ "_run_" ++ runId ++ "_" ++ toString i

/-- The per-repetition RunDirectorySet of a sweep iteration: metrics dir,
optional log file, optional artifacts dir. -/
def sweepRunDirs (w : SweepWrapper) (runId : String) (i : Nat) :
    String × Option String × Option String :=
  (pathJoin w.metricsDirpath (sweepRunTag w runId i),
   w.logDirpath.map (fun d => pathJoin d (sweepRunTag w runId i ++ ".log")),
   w.artifactsDirpath.map (fun d => pathJoin d (sweepRunTag w runId i)))

/-- The run_single_experiment invocation made by sweep repetition i, with
the run-scoped out_of_config entry "run" = curr_run injected. -/
def sweepInvokeEvent (w : SweepWrapper) (script expArgs : String)
    (config : List (String × String)) (runId : String) (i : Nat) : TrackEvent :=
  let dirs := sweepRunDirs w runId i
  TrackEvent.invoke
    (run_single_experiment_cmd script expArgs config dirs.1 dirs.2.1 dirs.2.2
      [("run", toString i)])
    dirs.1 dirs.2.1 dirs.2.2

/-- What the repetition loop of RunWrapperSweep._do_run_experiment
accumulates: events, durations, and the three per-iteration path lists
(log and artifacts paths appended only when configured). -/
structure SweepLoopOut where
  events : List TrackEvent
  durations : List ℚ
  metricsDirs : List String
  logFiles : List String
  artifactsDirs : List String
  deriving DecidableEq

/-- The "for curr_run in range(runs_per_sweep)" loop, counting down the
remaining iterations with i the current repetition index; the duration of
repetition i is supplied by the oracle. -/
def sweepLoop (w : SweepWrapper) (script expArgs : String) (config : List (String × String))
    (runId : String) (durations : Nat → ℚ) : Nat → Nat → SweepLoopOut
  | 0, _ => ⟨[], [], [], [], []⟩
  | Nat.succ k, i =>
    let dirs := sweepRunDirs w runId i
    let rest := sweepLoop w script expArgs config runId durations k (i + 1)
    ⟨sweepInvokeEvent w script expArgs config runId i :: rest.events,
     durations i :: rest.durations,
     dirs.1 :: rest.metricsDirs,
     dirs.2.1.toList ++ rest.logFiles,
     dirs.2.2.toList ++ rest.artifactsDirs⟩

/-- RunWrapperSweep._do_run_experiment: run the repetition loop, then one
parse dispatch over the accumulated lists, then log the np.mean of the
durations as duration_secs, then finish the tracked run. -/
def sweepDoRunExperiment (w : SweepWrapper) (script expArgs : String)
    (config : List (String × String)) (runId : String) (durations : Nat → ℚ) :
    List TrackEvent :=
  let out := sweepLoop w script expArgs config runId durations w.runsPerSweep 0
  out.events
    ++ [TrackEvent.parseDispatch out.metricsDirs out.logFiles out.artifactsDirs,
        TrackEvent.logScalar "duration_secs" (out.durations.sum / (out.durations.length : ℚ)),
        TrackEvent.finish]

/-- Bool test: is an event an experiment invocation. -/
def isInvokeEvent : TrackEvent → Bool
  | TrackEvent.invoke _ _ _ _ => true
  | _ => false

/-- Bool test: is an event the finish (finalize) transition. -/
def isFinishEvent : TrackEvent → Bool
  | TrackEvent.finish => true
  | _ => false

/-- Bool test: is an event a duration_secs scalar log. -/
def isDurationLog : TrackEvent → Bool
  | TrackEvent.logScalar n _ => n == "duration_secs"
  | _ => false

/-- The group-id selection loop of perform_single_experiment: one iteration
per run index in range(starting_run, runs); when the current group id is
None or "auto" a fresh id is drawn from the generator (modelled as a stream
with a draw counter).  Returns the group id given to each run, and how many
ids were generated. -/
def groupIdLoop (gen : Nat → String) : Nat → Option String → Nat → List String × Nat
  | 0, _, c => ([], c)
  | Nat.succ k, gid, c =>
    if gid = none ∨ gid = some "auto" then
      let g := gen c
      let rest := groupIdLoop gen k (some g) (c + 1)
      (g :: rest.1, rest.2)
    else
      let rest := groupIdLoop gen k gid c
      (gid.getD "" :: rest.1, rest.2)

/-- The group ids assigned by perform_single_experiment to the runs of one
simple batch, starting from run_config.get("group-by", None). -/
def performSingleGroupIds (groupBy : Option String) (startingRun runs : Nat)
    (gen : Nat → String) : List String × Nat :=
  groupIdLoop gen (runs - startingRun) groupBy 0

/-- The parsing routines known to parse_functions.py. -/
inductive ParseFn where
  | defaultParseMetricsFn
  | defaultParseLogfileFn
  | defaultParseArtifactsFn
  deriving DecidableEq

/-- The metric_dict lookup table of parse_functions.py. -/
def metric_dict : List (String × ParseFn) := [("default", ParseFn.defaultParseMetricsFn)]

/-- The logfile_dict lookup table of parse_functions.py. -/
def logfile_dict : List (String × ParseFn) := [("default", ParseFn.defaultParseLogfileFn)]

/-- The artifact_dict lookup table of parse_functions.py. -/
def artifact_dict : List (String × ParseFn) := [("default", ParseFn.defaultParseArtifactsFn)]

/-- One category entry of the parsing-setup section ("metrics", "logfile"
or "artifacts"): its optional "method" name (method args are irrelevant to
resolution and omitted). -/
structure CategorySetup where
  method : Option String
  deriving DecidableEq

/-- The parsing-setup section of the configuration document, with each of
the three category entries optional. -/
structure ParsingSetup where
  metrics : Option CategorySetup
  logfile : Option CategorySetup
  artifacts : Option CategorySetup
  deriving DecidableEq

/-- What main computes for one category: when the category section is
present, dict.get of the configured method name (defaulting the name to
"default"); when the section is absent the function variable keeps its
initial None. -/
def resolveCategory (tab : List (String × ParseFn)) (sec : Option CategorySetup) :
    Option ParseFn :=
  match sec with
  | some c => dictGet tab (c.method.getD "default")
  | none => none

/-- The three fail-fast checks of main: raise for the first category whose
resolved function is still None, otherwise hand back the three routines. -/
def requireFns (o1 o2 o3 : Option ParseFn) : Except String (ParseFn × ParseFn × ParseFn) :=
  match o1 with
  | none => Except.error "Metric parsing function not found"
  | some mfn =>
    match o2 with
    | none => Except.error "Logfile parsing function not found"
    | some lfn =>
      match o3 with
      | none => Except.error "Artifacts parsing function not found"
      | some afn => Except.ok (mfn, lfn, afn)

/-- The parsing-function resolution main performs before any run: with no
parsing-setup section every category stays None; otherwise each category is
resolved from its own section; then the three fail-fast checks run. -/
def mainResolveParsing (ps : Option ParsingSetup) :
    Except String (ParseFn × ParseFn × ParseFn) :=
  match ps with
  | none => requireFns none none none
  | some pc =>
    requireFns (resolveCategory metric_dict pc.metrics)
      (resolveCategory logfile_dict pc.logfile)
      (resolveCategory artifact_dict pc.artifacts)

/-- Modelled from the spec (claim C6's reading, for comparison with
mainResolveParsing): for each category a configured method name, defaulting
to "default" whenever no method is configured - also when the category
section or the whole parsing-setup section is absent - is resolved through
the fixed table, and a fatal error arises exactly when a resolved name is
absent from its table. -/
def specResolveCategory (tab : List (String × ParseFn)) (sec : Option CategorySetup) :
    Option ParseFn :=
  dictGet tab ((sec.bind CategorySetup.method).getD "default")

/-- Modelled from the spec: the whole resolution step as claim C6 describes
it, erroring exactly when some category's configured-or-defaulted name is
not in its table. -/
def specResolveParsing (ps : Option ParsingSetup) :
    Except String (ParseFn × ParseFn × ParseFn) :=
  let secs : Option CategorySetup × Option CategorySetup × Option CategorySetup :=
    match ps with
    | none => (none, none, none)
    | some pc => (pc.metrics, pc.logfile, pc.artifacts)
  match specResolveCategory metric_dict secs.1, specResolveCategory logfile_dict secs.2.1,
      specResolveCategory artifact_dict secs.2.2 with
  | some m, some l, some a => Except.ok (m, l, a)
  | _, _, _ => Except.error "parsing method not found"

/-- All (x, y) sample pairs of a buffered record list, in iteration order
of the aggregation double loop. -/
def pairsOf : List MetricRecord → List (Int × ℚ)
  | [] => []
  | m :: ms => recordPairs m ++ pairsOf ms

/-- First-match lookup of the sample list stored under key x in the
metrics_aggregate association list (dict access, given unique keys). -/
def getYs : List (Int × List ℚ) → Int → List ℚ
  | [], _ => []
  | q :: agg, x => if q.1 == x then q.2 else getYs agg x

/-- The y samples pooled for key x from a flat pair list. -/
def pairsYsAt (ps : List (Int × ℚ)) (x : Int) : List ℚ :=
  (ps.filter (fun p => p.1 == x)).map Prod.snd

/-- The key list of a metrics_aggregate association list. -/
def aggKeys (agg : List (Int × List ℚ)) : List Int := agg.map Prod.fst

/-- The per-x mean the flush assigns to the x value x for a buffered
record list (the value logged as "<name>_at_<x>" when x occurs). -/
def meanAt (ms : List MetricRecord) (x : Int) : ℚ :=
  listMean (getYs (buildAggregate ms) x)

/-- Bool test: is a log a committed scalar write (the aggregate emission:
the only commit=True log of a flush). -/
def isCommitScalar : WandbLog → Bool
  | WandbLog.scalar _ _ c => c
  | _ => false

/-- First example record of the specification's worked aggregate: x values
50, 100, 150 with first samples 0.9, 0.7, 0.5. -/
def exampleRecord1 : MetricRecord :=
  ⟨"network-size", "PDR", [50, 100, 150], [9/10, 7/10, 1/2], "network size", "PDR"⟩

/-- Second example record of the specification's worked aggregate: x values
50, 100, 150 with second samples 0.92, 0.68, 0.45. -/
def exampleRecord2 : MetricRecord :=
  ⟨"network-size", "PDR", [50, 100, 150], [23/25, 17/25, 9/20], "network size", "PDR"⟩

/-- A record that carries no sample pairs at all. -/
def emptyRecord : MetricRecord :=
  ⟨"network-size", "PDR", [], [], "network size", "PDR"⟩

/-! Generic list helper lemmas. -/

/-- Mapping two pointwise-equal functions over a list gives the same list. -/
theorem map_congr_mem {α β : Type} {l : List α} {f g : α → β}
    (h : ∀ a ∈ l, f a = g a) : l.map f = l.map g := by
  induction l with
  | nil => rfl
  | cons a t ih =>
    simp only [List.map_cons]
    rw [h a (by simp), ih (fun x hx => h x (by simp [hx]))]

/-- A filter that accepts every element of a list returns it unchanged. -/
theorem filter_eq_self_of_all {α : Type} {l : List α} {p : α → Bool}
    (h : ∀ a ∈ l, p a = true) : l.filter p = l := by
  induction l with
  | nil => rfl
  | cons a t ih =>
    simp [List.filter_cons, h a (by simp), ih (fun x hx => h x (by simp [hx]))]

/-! Claim C5. -/

/-- Claim C5: the Experiment Invoker builds its argument list in this fixed
order: interpreter and script, the metrics directory, the log path if
present, the artifacts directory if present, the externally-supplied static
argument block, then one "--key=value" token per configuration entry
including every extra run-scoped entry (out_of_config after config). -/
theorem claim_C5_invoker_argument_order (script expArgs : String)
    (config : List (String × String)) (metricsDirpath : String)
    (logFilepath : Option String) (artifactsDirpath : Option String)
    (outOfConfig : List (String × String)) :
    run_single_experiment_cmd script expArgs config metricsDirpath logFilepath
        artifactsDirpath outOfConfig =
      ["bash", script, metricsDirpath] ++ logFilepath.toList ++ artifactsDirpath.toList
        ++ [expArgs] ++ configTokens (config ++ outOfConfig) := by
  cases logFilepath <;> cases artifactsDirpath <;>
    simp [run_single_experiment_cmd, configTokens]

/-! Claim C4. -/

/-- The enumerate loop over a directory list with a distinguished last
element: every earlier iteration gets terminal flag false, the final one
gets true. -/
theorem runParseCallsAux_front (lastd : String) :
    ∀ (front : List String) (i total : Nat), total = i + front.length + 1 →
      runParseCallsAux total i (front ++ [lastd]) =
        front.map (fun d => (d, false)) ++ [(lastd, true)] := by
  intro front
  induction front with
  | nil =>
    intro i total htot
    subst htot
    simp [runParseCallsAux]
  | cons d ds ih =>
    intro i total htot
    simp only [List.length_cons] at htot
    have hne : (i == total - 1) = false := by
      have h1 : i ≠ total - 1 := by omega
      simpa using h1
    show (d, i == total - 1) :: runParseCallsAux total (i + 1) (ds ++ [lastd]) = _
    rw [hne, ih (i + 1) total (by omega)]
    simp

/-- Claim C4: the parsing dispatch invokes the metrics parse routine once
per metrics directory, in list order, and the terminal signal it passes is
true exactly on the last position of the list; in particular for a
single-directory list the only call is terminal. -/
theorem claim_C4_terminal_flag_on_last_directory (front : List String) (lastd : String) :
    runParseMetricsCalls (front ++ [lastd]) =
      front.map (fun d => (d, false)) ++ [(lastd, true)] := by
  unfold runParseMetricsCalls
  rw [runParseCallsAux_front lastd front 0 (front ++ [lastd]).length (by simp)]

/-! Claim C8. -/

/-- default_parse_metrics processes a concatenation of directory entries
independently, entry by entry. -/
theorem default_parse_metrics_append (dirpath : String) (lastFile : Bool)
    (xs ys : List MetricsFile) :
    default_parse_metrics dirpath lastFile (xs ++ ys) =
      default_parse_metrics dirpath lastFile xs ++ default_parse_metrics dirpath lastFile ys := by
  induction xs with
  | nil => simp [default_parse_metrics]
  | cons f fs ih => simp [default_parse_metrics, ih]

/-- Claim C8: a metric file whose type tag is not in the metric-type
handler table is skipped with a warning - no handler (aggregation) call is
made for it and no failure occurs - while every other file in the same
directory is processed exactly as it would be without it. -/
theorem claim_C8_unsupported_metric_type_skipped (dirpath : String) (lastFile : Bool)
    (pre post : List MetricsFile) (bad : MetricsFile)
    (hfile : bad.isFile = true)
    (hyaml : strEndsWith (pathJoin dirpath bad.fname) ".yaml" = true)
    (htype : dictGet metric_type_handling bad.content.mtype = none) :
    default_parse_metrics dirpath lastFile (pre ++ bad :: post) =
      default_parse_metrics dirpath lastFile pre
        ++ ParseEvent.warnUnsupported (pathJoin dirpath bad.fname) bad.content.mtype
          :: default_parse_metrics dirpath lastFile post := by
  have hbad : parseFileEvents dirpath bad lastFile =
      [ParseEvent.warnUnsupported (pathJoin dirpath bad.fname) bad.content.mtype] := by
    simp [parseFileEvents, hfile, hyaml, htype]
  rw [default_parse_metrics_append dirpath lastFile pre (bad :: post)]
  simp [default_parse_metrics, hbad]

/-! Claim C2 and claim C10. -/

/-- The avg_across_size accumulator computes the sum and the count of the
per-x means. -/
theorem avgAccum_eq (agg : List (Int × ℚ)) :
    avgAccum agg = ((agg.map Prod.snd).sum, (agg.length : ℚ)) := by
  suffices h : ∀ (s c : ℚ), agg.foldl (fun acc q => (acc.1 + q.2, acc.2 + 1)) (s, c)
      = (s + (agg.map Prod.snd).sum, c + (agg.length : ℚ)) by
    simpa [avgAccum] using h 0 0
  induction agg with
  | nil => intro s c; simp
  | cons q t ih =>
    intro s c
    simp only [List.foldl_cons, List.map_cons, List.sum_cons, List.length_cons]
    rw [ih]
    simp only [Prod.mk.injEq]
    constructor
    · ring
    · push_cast
      ring

/-- Claim C2: at flush the aggregator pools the (x, y) pairs of all
buffered records by x value, emits one "<metricName>_at_<x>" scalar per
distinct x holding the per-x mean, and one "<metricName>_avg" scalar equal
to the mean of the per-x means; on the specification's example records the
per-x means are 0.91, 0.69 and 0.475 and the overall average is within
1e-4 of 0.6917. -/
theorem claim_C2_flush_grouped_means :
    (∀ (mn : String) (ms : List MetricRecord) (cur : MetricRecord) (gid : String),
      flushLogs mn ms cur false gid =
        (aggMeans ms).map (fun q => WandbLog.scalar (mn ++ "_at_" ++ toString q.1) q.2 false)
          ++ [WandbLog.scalar (mn ++ "_avg")
                (((aggMeans ms).map Prod.snd).sum / ((aggMeans ms).length : ℚ)) true])
    ∧ (ingestSeq false "g" [] [(exampleRecord1, false), (exampleRecord2, true)]).2 =
        [WandbLog.scalar "PDR_at_50" (91/100) false,
         WandbLog.scalar "PDR_at_100" (69/100) false,
         WandbLog.scalar "PDR_at_150" (19/40) false,
         WandbLog.scalar "PDR_avg" (83/120) true]
    ∧ |(83 : ℚ)/120 - 6917/10000| ≤ 1/10000 := by
  refine ⟨?_, ?_, ?_⟩
  · intro mn ms cur gid
    simp [flushLogs, metricsAvg, avgAccum_eq]
  · have h50 : ("PDR" ++ "_at_" ++ toString (50 : Int)) = "PDR_at_50" := by decide
    have h100 : ("PDR" ++ "_at_" ++ toString (100 : Int)) = "PDR_at_100" := by decide
    have h150 : ("PDR" ++ "_at_" ++ toString (150 : Int)) = "PDR_at_150" := by decide
    have havg : ("PDR" ++ "_avg") = "PDR_avg" := by decide
    norm_num [ingestSeq, networkSize, storageAppend, storageGet, storageDel, flushLogs,
      aggMeans, buildAggregate, recordPairs, addPair, listMean, metricsAvg, avgAccum,
      exampleRecord1, exampleRecord2, h50, h100, h150, havg, List.find?, List.filter]
  · rw [abs_sub_le_iff]
    constructor <;> norm_num

/-- buildAggregate is the fold of the grouping step over the flat list of
all sample pairs. -/
theorem buildAggregate_eq_pairs (ms : List MetricRecord) :
    buildAggregate ms = (pairsOf ms).foldl addPair [] := by
  suffices h : ∀ agg, ms.foldl (fun a m => (recordPairs m).foldl addPair a) agg
      = (pairsOf ms).foldl addPair agg from h []
  induction ms with
  | nil => intro agg; simp [pairsOf]
  | cons m t ih => intro agg; simp [pairsOf, List.foldl_append, ih]

/-- The grouping step never shrinks the aggregate. -/
theorem length_le_addPair (agg : List (Int × List ℚ)) (p : Int × ℚ) :
    agg.length ≤ (addPair agg p).length := by
  unfold addPair
  split <;> simp

/-- Folding the grouping step never shrinks the aggregate. -/
theorem length_le_foldl_addPair (ps : List (Int × ℚ)) :
    ∀ agg, agg.length ≤ (ps.foldl addPair agg).length := by
  induction ps with
  | nil => intro agg; simp
  | cons p t ih => intro agg; exact le_trans (length_le_addPair agg p) (ih _)

/-- A record list contributes no sample pairs exactly when each of its
records has an empty zip of x against y values. -/
theorem pairsOf_eq_nil_iff (ms : List MetricRecord) :
    pairsOf ms = [] ↔ ∀ m ∈ ms, recordPairs m = [] := by
  induction ms with
  | nil => simp [pairsOf]
  | cons m t ih => simp [pairsOf, ih]

/-- Claim C10: the division producing "<metricName>_avg" is unguarded; its
divisor is the number of distinct x values of the flushed records, which is
positive whenever the records collectively hold at least one (x, y) sample
pair, and zero when they hold none (as with a lone terminal record whose
value sequences are empty). -/
theorem claim_C10_avg_divisor_shape (ms : List MetricRecord) :
    (avgAccum (aggMeans ms)).2 = ((buildAggregate ms).length : ℚ)
    ∧ ((∃ m ∈ ms, recordPairs m ≠ []) → 0 < (buildAggregate ms).length)
    ∧ ((∀ m ∈ ms, recordPairs m = []) → (buildAggregate ms).length = 0) := by
  refine ⟨?_, ?_, ?_⟩
  · simp [avgAccum_eq, aggMeans]
  · rintro ⟨m, hm, hne⟩
    have hps : pairsOf ms ≠ [] := by
      intro h
      exact hne ((pairsOf_eq_nil_iff ms).mp h m hm)
    obtain ⟨p, tl, hpt⟩ := List.exists_cons_of_ne_nil hps
    rw [buildAggregate_eq_pairs, hpt]
    have h1 : (addPair [] p).length = 1 := by simp [addPair]
    calc 0 < (addPair [] p).length := by omega
      _ ≤ ((p :: tl).foldl addPair []).length := by
          simpa using length_le_foldl_addPair tl (addPair [] p)
  · intro h
    rw [buildAggregate_eq_pairs, (pairsOf_eq_nil_iff ms).mpr h]
    rfl

/-- Witness for claim C10: a single example record has sample pairs and a
positive divisor, while a single empty record gives divisor zero. -/
theorem claim_C10_witness :
    (∃ m ∈ [exampleRecord1], recordPairs m ≠ []) ∧ 0 < (buildAggregate [exampleRecord1]).length
    ∧ (∀ m ∈ [emptyRecord], recordPairs m = []) ∧ (buildAggregate [emptyRecord]).length = 0 :=
  ⟨⟨exampleRecord1, by simp, by simp [recordPairs, exampleRecord1]⟩,
   (claim_C10_avg_divisor_shape [exampleRecord1]).2.1
     ⟨exampleRecord1, by simp, by simp [recordPairs, exampleRecord1]⟩,
   (fun m hm => by rw [List.mem_singleton] at hm; subst hm; rfl),
   (claim_C10_avg_divisor_shape [emptyRecord]).2.2
     (fun m hm => by rw [List.mem_singleton] at hm; subst hm; rfl)⟩

/-! Claim C3. -/

/-- The sweep repetition loop performs one invocation per repetition index,
in order. -/
theorem sweepLoop_events (w : SweepWrapper) (script expArgs : String)
    (config : List (String × String)) (runId : String) (durations : Nat → ℚ) :
    ∀ (n i : Nat), (sweepLoop w script expArgs config runId durations n i).events =
      (List.range' i n).map (sweepInvokeEvent w script expArgs config runId) := by
  intro n
  induction n with
  | zero => intro i; rfl
  | succ k ih =>
    intro i
    rw [List.range'_succ]
    simp only [sweepLoop, List.map_cons]
    rw [ih (i + 1)]

/-- The sweep repetition loop collects the durations of repetitions
i, i+1, ..., in order. -/
theorem sweepLoop_durations (w : SweepWrapper) (script expArgs : String)
    (config : List (String × String)) (runId : String) (durations : Nat → ℚ) :
    ∀ (n i : Nat), (sweepLoop w script expArgs config runId durations n i).durations =
      (List.range' i n).map durations := by
  intro n
  induction n with
  | zero => intro i; rfl
  | succ k ih =>
    intro i
    rw [List.range'_succ]
    simp only [sweepLoop, List.map_cons]
    rw [ih (i + 1)]

/-- Claim C3: a sweep run-wrapper lifecycle with runs-per-sweep = N
performs exactly N Experiment Invoker calls - the i-th with its own
repetition-suffixed directory set and the injected "--run=i" argument -
then finalizes exactly once, at the end, and the single duration_secs
scalar it logs equals the arithmetic mean of the N individual durations. -/
theorem claim_C3_sweep_invokes_single_finalize_mean_duration (w : SweepWrapper)
    (script expArgs : String) (config : List (String × String)) (runId : String)
    (durations : Nat → ℚ) (_hpos : 0 < w.runsPerSweep) :
    ((sweepDoRunExperiment w script expArgs config runId durations).filter isInvokeEvent =
        (List.range w.runsPerSweep).map (sweepInvokeEvent w script expArgs config runId))
    ∧ (sweepDoRunExperiment w script expArgs config runId durations).countP isInvokeEvent =
        w.runsPerSweep
    ∧ (sweepDoRunExperiment w script expArgs config runId durations).countP isFinishEvent = 1
    ∧ (sweepDoRunExperiment w script expArgs config runId durations).getLast? =
        some TrackEvent.finish
    ∧ (sweepDoRunExperiment w script expArgs config runId durations).filter isDurationLog =
        [TrackEvent.logScalar "duration_secs"
          (((List.range w.runsPerSweep).map durations).sum / (w.runsPerSweep : ℚ))] := by
  have hev : (sweepLoop w script expArgs config runId durations w.runsPerSweep 0).events =
      (List.range w.runsPerSweep).map (sweepInvokeEvent w script expArgs config runId) := by
    rw [List.range_eq_range']
    exact sweepLoop_events w script expArgs config runId durations w.runsPerSweep 0
  have hdur : (sweepLoop w script expArgs config runId durations w.runsPerSweep 0).durations =
      (List.range w.runsPerSweep).map durations := by
    rw [List.range_eq_range']
    exact sweepLoop_durations w script expArgs config runId durations w.runsPerSweep 0
  have hinv : ∀ a ∈ (List.range w.runsPerSweep).map
      (sweepInvokeEvent w script expArgs config runId), isInvokeEvent a = true := by
    intro a ha
    obtain ⟨i, _, rfl⟩ := List.mem_map.mp ha
    rfl
  have hinvfin : ∀ a ∈ (List.range w.runsPerSweep).map
      (sweepInvokeEvent w script expArgs config runId), ¬ isFinishEvent a = true := by
    intro a ha
    obtain ⟨i, _, rfl⟩ := List.mem_map.mp ha
    simp [sweepInvokeEvent, isFinishEvent]
  have hinvdur : ∀ a ∈ (List.range w.runsPerSweep).map
      (sweepInvokeEvent w script expArgs config runId), ¬ isDurationLog a = true := by
    intro a ha
    obtain ⟨i, _, rfl⟩ := List.mem_map.mp ha
    simp [sweepInvokeEvent, isDurationLog]
  simp only [sweepDoRunExperiment, hev, hdur]
  refine ⟨?_, ?_, ?_, ?_, ?_⟩
  · rw [List.filter_append, filter_eq_self_of_all hinv]
    simp [isInvokeEvent]
  · rw [List.countP_append, List.countP_eq_length_filter, filter_eq_self_of_all hinv,
      List.length_map, List.length_range]
    simp [List.countP_cons, isInvokeEvent]
  · rw [List.countP_append]
    have h0 : List.countP isFinishEvent ((List.range w.runsPerSweep).map
        (sweepInvokeEvent w script expArgs config runId)) = 0 :=
      List.countP_eq_zero.mpr hinvfin
    rw [h0]
    simp [List.countP_cons, isFinishEvent]
  · rw [show [TrackEvent.parseDispatch
        (sweepLoop w script expArgs config runId durations w.runsPerSweep 0).metricsDirs
        (sweepLoop w script expArgs config runId durations w.runsPerSweep 0).logFiles
        (sweepLoop w script expArgs config runId durations w.runsPerSweep 0).artifactsDirs,
      TrackEvent.logScalar "duration_secs"
        (((List.range w.runsPerSweep).map durations).sum /
          ((((List.range w.runsPerSweep).map durations).length : ℚ))),
      TrackEvent.finish] = [TrackEvent.parseDispatch
        (sweepLoop w script expArgs config runId durations w.runsPerSweep 0).metricsDirs
        (sweepLoop w script expArgs config runId durations w.runsPerSweep 0).logFiles
        (sweepLoop w script expArgs config runId durations w.runsPerSweep 0).artifactsDirs,
      TrackEvent.logScalar "duration_secs"
        (((List.range w.runsPerSweep).map durations).sum /
          ((((List.range w.runsPerSweep).map durations).length : ℚ)))] ++ [TrackEvent.finish]
      from rfl, ← List.append_assoc, List.getLast?_concat]
  · rw [List.filter_append, List.filter_eq_nil_iff.mpr hinvdur]
    simp [isDurationLog, List.filter]

/-- Witness for claim C3: a sweep wrapper with runs-per-sweep = 3 and
durations 1, 2, 3 makes three invoker calls, finalizes once, and logs
duration_secs = (1 + 2 + 3) / 3. -/
theorem claim_C3_witness :
    0 < (3 : Nat)
    ∧ (sweepDoRunExperiment ⟨"sweep1", 3, "mdir", none, none⟩ "run.sh" "EXPARGS"
        [("alpha", "1")] "r7" (fun i => (i : ℚ) + 1)).countP isInvokeEvent = 3
    ∧ (sweepDoRunExperiment ⟨"sweep1", 3, "mdir", none, none⟩ "run.sh" "EXPARGS"
        [("alpha", "1")] "r7" (fun i => (i : ℚ) + 1)).countP isFinishEvent = 1
    ∧ (sweepDoRunExperiment ⟨"sweep1", 3, "mdir", none, none⟩ "run.sh" "EXPARGS"
        [("alpha", "1")] "r7" (fun i => (i : ℚ) + 1)).filter isDurationLog =
      [TrackEvent.logScalar "duration_secs"
        (((List.range 3).map (fun i => (i : ℚ) + 1)).sum / ((3 : Nat) : ℚ))] :=
  ⟨by decide,
   (claim_C3_sweep_invokes_single_finalize_mean_duration ⟨"sweep1", 3, "mdir", none, none⟩
     "run.sh" "EXPARGS" [("alpha", "1")] "r7" (fun i => (i : ℚ) + 1) (by decide)).2.1,
   (claim_C3_sweep_invokes_single_finalize_mean_duration ⟨"sweep1", 3, "mdir", none, none⟩
     "run.sh" "EXPARGS" [("alpha", "1")] "r7" (fun i => (i : ℚ) + 1) (by decide)).2.2.1,
   (claim_C3_sweep_invokes_single_finalize_mean_duration ⟨"sweep1", 3, "mdir", none, none⟩
     "run.sh" "EXPARGS" [("alpha", "1")] "r7" (fun i => (i : ℚ) + 1) (by decide)).2.2.2.2⟩

/-! Claim C7. -/

/-- Once the loop's current group id is a non-"auto" value, every later
run receives that same value and nothing more is generated. -/
theorem groupIdLoop_fixed (gen : Nat → String) (g : String) (hg : g ≠ "auto") :
    ∀ (k c : Nat), groupIdLoop gen k (some g) c = (List.replicate k g, c) := by
  intro k
  induction k with
  | zero => intro c; rfl
  | succ m ih =>
    intro c
    have hcond : ¬ ((some g : Option String) = none ∨ (some g : Option String) = some "auto") := by
      simp [hg]
    simp only [groupIdLoop, if_neg hcond]
    rw [ih c]
    simp [List.replicate_succ]

/-- Claim C7: in a simple batch, when group-by is absent or "auto" exactly
one GroupID is generated and every run of the batch receives it; when
group-by is any other literal value every run uses that value unchanged
and nothing is generated.  (The backend id generator is assumed not to
return the sentinel "auto".) -/
theorem claim_C7_batch_group_id (gen : Nat → String) (startingRun runs : Nat)
    (hgen : gen 0 ≠ "auto") (hcount : 0 < runs - startingRun) :
    (performSingleGroupIds none startingRun runs gen =
        (List.replicate (runs - startingRun) (gen 0), 1))
    ∧ (performSingleGroupIds (some "auto") startingRun runs gen =
        (List.replicate (runs - startingRun) (gen 0), 1))
    ∧ (∀ s : String, s ≠ "auto" → performSingleGroupIds (some s) startingRun runs gen =
        (List.replicate (runs - startingRun) s, 0)) := by
  obtain ⟨m, hm⟩ : ∃ m, runs - startingRun = m + 1 := by
    obtain ⟨m, hm⟩ := Nat.exists_eq_succ_of_ne_zero (Nat.pos_iff_ne_zero.mp hcount)
    exact ⟨m, hm⟩
  refine ⟨?_, ?_, ?_⟩
  · unfold performSingleGroupIds
    rw [hm]
    simp only [groupIdLoop, if_pos (Or.inl rfl)]
    rw [groupIdLoop_fixed gen (gen 0) hgen m 1]
    simp [List.replicate_succ]
  · unfold performSingleGroupIds
    rw [hm]
    simp only [groupIdLoop, if_pos (Or.inr rfl)]
    rw [groupIdLoop_fixed gen (gen 0) hgen m 1]
    simp [List.replicate_succ]
  · intro s hs
    unfold performSingleGroupIds
    exact groupIdLoop_fixed gen s hs (runs - startingRun) 0

/-- Witness for claim C7: a batch of three runs shares the one generated
id "grp" when group-by is absent, and uses the literal "mygroup" for every
run when configured so. -/
theorem claim_C7_witness :
    ("grp" : String) ≠ "auto" ∧ 0 < 3 - 0
    ∧ performSingleGroupIds none 0 3 (fun _ => "grp") = (List.replicate 3 "grp", 1)
    ∧ performSingleGroupIds (some "mygroup") 0 3 (fun _ => "grp") =
        (List.replicate 3 "mygroup", 0) :=
  ⟨by decide, by decide,
   (claim_C7_batch_group_id (fun _ => "grp") 0 3 (by decide) (by decide)).1,
   (claim_C7_batch_group_id (fun _ => "grp") 0 3 (by decide) (by decide)).2.2 "mygroup"
     (by decide)⟩

/-! Claim C6. -/

/-- The three fail-fast checks succeed exactly when all three resolved
functions are present. -/
theorem requireFns_ok_iff (o1 o2 o3 : Option ParseFn) :
    (∃ r, requireFns o1 o2 o3 = Except.ok r) ↔
      o1.isSome = true ∧ o2.isSome = true ∧ o3.isSome = true := by
  cases o1 <;> cases o2 <;> cases o3 <;> simp [requireFns]

/-- A category resolves exactly when its section is present and its
configured-or-defaulted method name is in the table. -/
theorem resolveCategory_isSome_iff (tab : List (String × ParseFn)) (sec : Option CategorySetup) :
    (resolveCategory tab sec).isSome = true ↔
      ∃ c, sec = some c ∧ (dictGet tab (c.method.getD "default")).isSome = true := by
  cases sec <;> simp [resolveCategory]

/-- Counterexample to claim C6 as stated: with no parsing-setup section
configured at all (so no method is configured for any category), the
claim's resolution - defaulting every category's name to "default", which
the fixed tables contain - succeeds, but main raises the fatal
"Metric parsing function not found" error instead of defaulting. -/
theorem claim_C6_counterexample :
    specResolveParsing none =
      Except.ok (ParseFn.defaultParseMetricsFn, ParseFn.defaultParseLogfileFn,
        ParseFn.defaultParseArtifactsFn)
    ∧ mainResolveParsing none = Except.error "Metric parsing function not found" := by
  constructor
  · rfl
  · rfl

/-- Claim C6 (amended): for each category whose section is present under
parsing-setup, the configured method name - defaulting to "default" when
the section gives no method - is resolved through the fixed table, and the
pre-run check succeeds exactly when parsing-setup is present, all three
category sections are present, and every resolved name is in its table;
otherwise the fatal configuration error is raised before any run. -/
theorem claim_C6_fail_fast_resolution :
    (∀ (tab : List (String × ParseFn)) (c : CategorySetup),
      resolveCategory tab (some c) = dictGet tab (c.method.getD "default"))
    ∧ (∀ ps : Option ParsingSetup,
        (∃ r, mainResolveParsing ps = Except.ok r) ↔
          ∃ pc, ps = some pc
            ∧ (∃ c, pc.metrics = some c
                ∧ (dictGet metric_dict (c.method.getD "default")).isSome = true)
            ∧ (∃ c, pc.logfile = some c
                ∧ (dictGet logfile_dict (c.method.getD "default")).isSome = true)
            ∧ (∃ c, pc.artifacts = some c
                ∧ (dictGet artifact_dict (c.method.getD "default")).isSome = true)) := by
  constructor
  · intro tab c
    rfl
  · intro ps
    cases ps with
    | none => simp [mainResolveParsing, requireFns]
    | some pc =>
      simp only [mainResolveParsing]
      rw [requireFns_ok_iff]
      simp [resolveCategory_isSome_iff]

/-! Claim C1. -/

/-- A metric name is absent from the storage exactly when no entry carries
its key. -/
theorem storageGet_none_iff (s : MetricsStorage) (n : String) :
    storageGet s n = none ↔ ∀ p ∈ s, ¬ (p.1 == n) = true := by
  simp [storageGet, List.find?_eq_none]

/-- Appending a record for a name absent from the storage creates its
entry at the end. -/
theorem storageAppend_fresh (s : MetricsStorage) (n : String) (r : MetricRecord)
    (h : ∀ p ∈ s, ¬ (p.1 == n) = true) :
    storageAppend s n r = s ++ [(n, [r])] := by
  have hany : s.any (fun p => p.1 == n) = false := List.any_eq_false.mpr h
  simp [storageAppend, hany]

/-- Appending a record for a name whose entry sits at the end of the
storage extends exactly that entry's list. -/
theorem storageAppend_last (s : MetricsStorage) (n : String) (acc : List MetricRecord)
    (r : MetricRecord) (h : ∀ p ∈ s, ¬ (p.1 == n) = true) :
    storageAppend (s ++ [(n, acc)]) n r = s ++ [(n, acc ++ [r])] := by
  have hany : (s ++ [(n, acc)]).any (fun p => p.1 == n) = true :=
    List.any_eq_true.mpr ⟨(n, acc), by simp, by simp⟩
  unfold storageAppend
  rw [if_pos hany, List.map_append]
  congr 1
  · calc s.map (fun p => if (p.1 == n) = true then (p.1, p.2 ++ [r]) else p)
        = s.map id := map_congr_mem (fun p hp => by rw [if_neg (h p hp)]; rfl)
      _ = s := List.map_id s
  · simp

/-- find? skips a block whose elements all fail the predicate. -/
theorem find?_append_of_none {α : Type} {p : α → Bool} {l1 : List α} (l2 : List α)
    (h : ∀ x ∈ l1, ¬ p x = true) : (l1 ++ l2).find? p = l2.find? p := by
  induction l1 with
  | nil => rfl
  | cons a t ih =>
    rw [List.cons_append, List.find?_cons_of_neg _ (h a (by simp))]
    exact ih (fun x hx => h x (by simp [hx]))

/-- Lookup of a name whose single entry sits at the end of the storage. -/
theorem storageGet_last (s : MetricsStorage) (n : String) (lst : List MetricRecord)
    (h : ∀ p ∈ s, ¬ (p.1 == n) = true) :
    storageGet (s ++ [(n, lst)]) n = some lst := by
  unfold storageGet
  rw [find?_append_of_none [(n, lst)] h]
  simp [List.find?]

/-- Deleting a name whose single entry sits at the end of the storage
returns exactly the rest. -/
theorem storageDel_last (s : MetricsStorage) (n : String) (lst : List MetricRecord)
    (h : ∀ p ∈ s, ¬ (p.1 == n) = true) :
    storageDel (s ++ [(n, lst)]) n = s := by
  unfold storageDel
  rw [List.filter_append, filter_eq_self_of_all (l := s) (p := fun p => p.1 != n)
    (fun p hp => by
      have hf : (p.1 == n) = false := by simpa using h p hp
      simp [bne, hf])]
  simp

/-- A non-terminal network_size call only buffers. -/
theorem networkSize_not_last (s : MetricsStorage) (r : MetricRecord) (ls : Bool)
    (gid : String) : networkSize s r ls gid false = (storageAppend s r.name r, []) := rfl

/-- A terminal network_size call for a name absent from the storage buffers
just that record, flushes it alone, and leaves the storage as it was. -/
theorem networkSize_fresh_last (s : MetricsStorage) (r : MetricRecord) (ls : Bool)
    (gid : String) (h : ∀ p ∈ s, ¬ (p.1 == r.name) = true) :
    networkSize s r ls gid true = (s, flushLogs r.name [r] r ls gid) := by
  simp [networkSize, storageAppend_fresh s r.name r h, storageGet_last s r.name [r] h,
    storageDel_last s r.name [r] h]

/-- A terminal network_size call for the name whose accumulated entry sits
at the end of the storage flushes the accumulated records plus the terminal
one and removes the entry. -/
theorem networkSize_last (s : MetricsStorage) (n : String) (acc : List MetricRecord)
    (r : MetricRecord) (ls : Bool) (gid : String)
    (h : ∀ p ∈ s, ¬ (p.1 == n) = true) (hr : r.name = n) :
    networkSize (s ++ [(n, acc)]) r ls gid true = (s, flushLogs n (acc ++ [r]) r ls gid) := by
  subst hr
  simp [networkSize, storageAppend_last s r.name acc r h,
    storageGet_last s r.name (acc ++ [r]) h, storageDel_last s r.name (acc ++ [r]) h]

/-- A run of non-terminal same-name calls only extends the accumulated
entry, emitting nothing. -/
theorem ingestSeq_false_run (ls : Bool) (gid : String) (n : String) (s : MetricsStorage)
    (h : ∀ p ∈ s, ¬ (p.1 == n) = true) :
    ∀ (rs : List MetricRecord) (acc : List MetricRecord), (∀ r ∈ rs, r.name = n) →
      ingestSeq ls gid (s ++ [(n, acc)]) (rs.map (fun r => (r, false))) =
        (s ++ [(n, acc ++ rs)], []) := by
  intro rs
  induction rs with
  | nil => intro acc _; simp [ingestSeq]
  | cons r rs ih =>
    intro acc hnames
    have hr : r.name = n := hnames r (by simp)
    simp only [List.map_cons, ingestSeq, networkSize_not_last]
    rw [hr, storageAppend_last s n acc r h,
      ih (acc ++ [r]) (fun x hx => hnames x (by simp [hx]))]
    simp

/-- ingestSeq processes a concatenation of call sequences by threading the
storage and concatenating the logs. -/
theorem ingestSeq_append (ls : Bool) (gid : String) :
    ∀ (l1 l2 : List (MetricRecord × Bool)) (s : MetricsStorage),
      ingestSeq ls gid s (l1 ++ l2) =
        ((ingestSeq ls gid (ingestSeq ls gid s l1).1 l2).1,
         (ingestSeq ls gid s l1).2 ++ (ingestSeq ls gid (ingestSeq ls gid s l1).1 l2).2) := by
  intro l1
  induction l1 with
  | nil => intro l2 s; simp [ingestSeq]
  | cons rb t ih => intro l2 s; simp [ingestSeq, ih]

/-- A one-call sequence behaves as the single network_size call. -/
theorem ingestSeq_singleton (ls : Bool) (gid : String) (s : MetricsStorage)
    (r : MetricRecord) (b : Bool) :
    ingestSeq ls gid s [(r, b)] = networkSize s r ls gid b := by
  simp [ingestSeq]

/-- Every flush emits exactly one committed scalar (the aggregate). -/
theorem countP_commit_flushLogs (mn : String) (ms : List MetricRecord)
    (cur : MetricRecord) (ls : Bool) (gid : String) :
    (flushLogs mn ms cur ls gid).countP isCommitScalar = 1 := by
  simp only [flushLogs, List.countP_append]
  have h1 : List.countP isCommitScalar ((aggMeans ms).map
      (fun q => WandbLog.scalar (mn ++ "_at_" ++ toString q.1) q.2 false)) = 0 := by
    rw [List.countP_map]
    exact List.countP_eq_zero.mpr (fun a _ => by simp [isCommitScalar, Function.comp])
  have h2 : List.countP isCommitScalar
      [WandbLog.scalar (mn ++ "_avg") (metricsAvg ms) true] = 1 := by
    simp [List.countP_cons, isCommitScalar]
  have h3 : List.countP isCommitScalar (if ls then
      [WandbLog.series (mn ++ "_series") ((aggMeans ms).map Prod.fst)
        ((aggMeans ms).map Prod.snd) gid cur.yAxis cur.xAxis] else []) = 0 := by
    cases ls <;> simp [List.countP_cons, isCommitScalar]
  omega

/-- Claim C1: a same-name record sequence whose terminal flag is true only
on its last record produces exactly one flush: the whole sequence is
aggregated and emitted once (exactly one committed aggregate scalar), the
buffer entry is removed - the storage ends exactly as it started, without
the name - and a subsequent terminal record with no intervening data for
that name starts a fresh aggregation containing only itself. -/
theorem claim_C1_single_flush_and_cleanup (ls : Bool) (gid : String) (n : String)
    (s : MetricsStorage) (rs : List MetricRecord) (rLast : MetricRecord)
    (hnone : storageGet s n = none)
    (hnames : ∀ r ∈ rs, r.name = n) (hlast : rLast.name = n) :
    (ingestSeq ls gid s (rs.map (fun r => (r, false)) ++ [(rLast, true)]) =
        (s, flushLogs n (rs ++ [rLast]) rLast ls gid))
    ∧ (flushLogs n (rs ++ [rLast]) rLast ls gid).countP isCommitScalar = 1
    ∧ (∀ r2 : MetricRecord, r2.name = n →
        networkSize s r2 ls gid true = (s, flushLogs n [r2] r2 ls gid)) := by
  have hfree : ∀ p ∈ s, ¬ (p.1 == n) = true := (storageGet_none_iff s n).mp hnone
  refine ⟨?_, countP_commit_flushLogs n (rs ++ [rLast]) rLast ls gid, ?_⟩
  · cases rs with
    | nil =>
      simp only [List.map_nil, List.nil_append]
      rw [ingestSeq_singleton, networkSize_fresh_last s rLast ls gid
        (by rw [hlast]; exact hfree)]
      simp [hlast]
    | cons r0 rs =>
      have hr0 : r0.name = n := hnames r0 (by simp)
      simp only [List.map_cons, List.cons_append, ingestSeq, networkSize_not_last]
      rw [hr0, storageAppend_fresh s n r0 hfree]
      simp only [List.append_eq]
      rw [ingestSeq_append ls gid (rs.map (fun r => (r, false))) [(rLast, true)],
        ingestSeq_false_run ls gid n s hfree rs [r0]
          (fun x hx => hnames x (by simp [hx]))]
      simp only [ingestSeq_singleton]
      rw [networkSize_last s n ([r0] ++ rs) rLast ls gid hfree hlast]
      simp
  · intro r2 hr2
    rw [networkSize_fresh_last s r2 ls gid (by rw [hr2]; exact hfree)]
    rw [hr2]

/-- Witness for claim C1: starting from an empty storage, the two example
records with the terminal flag only on the second flush once, leave the
storage empty, and the flush carries exactly one committed scalar. -/
theorem claim_C1_witness :
    storageGet [] "PDR" = none
    ∧ ingestSeq false "g" [] [(exampleRecord1, false), (exampleRecord2, true)] =
        ([], flushLogs "PDR" [exampleRecord1, exampleRecord2] exampleRecord2 false "g")
    ∧ (flushLogs "PDR" [exampleRecord1, exampleRecord2] exampleRecord2 false "g").countP
        isCommitScalar = 1 :=
  ⟨rfl,
   (claim_C1_single_flush_and_cleanup false "g" "PDR" [] [exampleRecord1] exampleRecord2
     rfl (fun r hr => by rw [List.mem_singleton] at hr; subst hr; rfl) rfl).1,
   (claim_C1_single_flush_and_cleanup false "g" "PDR" [] [exampleRecord1] exampleRecord2
     rfl (fun r hr => by rw [List.mem_singleton] at hr; subst hr; rfl) rfl).2.1⟩

/-! Claim C9. -/

/-- A list whose any-test is not true has no element passing the test. -/
theorem any_eq_false_of_not {α : Type} {p : α → Bool} {l : List α}
    (h : ¬ l.any p = true) : ∀ x ∈ l, ¬ p x = true :=
  List.any_eq_false.mp (by
    cases hb : l.any p with
    | false => rfl
    | true => exact absurd hb h)

/-- Updating the entry of a key different from x leaves lookups at x
unchanged. -/
theorem getYs_map_update_ne (k x : Int) (hne : k ≠ x) (y : ℚ) :
    ∀ agg : List (Int × List ℚ),
      getYs (agg.map (fun q => if q.1 == k then (q.1, q.2 ++ [y]) else q)) x =
        getYs agg x := by
  intro agg
  induction agg with
  | nil => rfl
  | cons q t ih =>
    have ih2 : getYs (t.map (fun q => if q.1 = k then (q.1, q.2 ++ [y]) else q)) x =
        getYs t x := by simpa using ih
    by_cases hq : q.1 = k
    · simp [getYs, hq, hne, ih2]
    · by_cases hx : q.1 = x <;> simp [getYs, hq, hx, hne.symm, ih2]

/-- Updating the entry of a present key k appends the new sample to the
lookup at k. -/
theorem getYs_map_update_self (k : Int) (y : ℚ) :
    ∀ agg : List (Int × List ℚ), agg.any (fun q => q.1 == k) = true →
      getYs (agg.map (fun q => if q.1 == k then (q.1, q.2 ++ [y]) else q)) k =
        getYs agg k ++ [y] := by
  intro agg
  induction agg with
  | nil => intro h; simp at h
  | cons q t ih =>
    intro h
    by_cases hq : q.1 = k
    · simp [getYs, hq]
    · have ht : t.any (fun q => q.1 == k) = true := by
        simpa [List.any_cons, hq] using h
      have ih2 : getYs (t.map (fun q => if q.1 = k then (q.1, q.2 ++ [y]) else q)) k =
          getYs t k ++ [y] := by simpa using ih ht
      simp [getYs, hq, ih2]

/-- Lookup skips a prefix carrying none of the key. -/
theorem getYs_append_of_left_none (x : Int) :
    ∀ (l1 l2 : List (Int × List ℚ)), (∀ q ∈ l1, ¬ (q.1 == x) = true) →
      getYs (l1 ++ l2) x = getYs l2 x := by
  intro l1
  induction l1 with
  | nil => intro l2 _; rfl
  | cons q t ih =>
    intro l2 h
    have hq : ¬ (q.1 == x) = true := h q (by simp)
    simp only [List.cons_append, getYs]
    rw [if_neg hq]
    exact ih l2 (fun p hp => h p (by simp [hp]))

/-- Lookup of an absent key gives the empty sample list. -/
theorem getYs_eq_nil_of_none (x : Int) :
    ∀ agg : List (Int × List ℚ), (∀ q ∈ agg, ¬ (q.1 == x) = true) →
      getYs agg x = [] := by
  intro agg
  induction agg with
  | nil => intro _; rfl
  | cons q t ih =>
    intro h
    simp only [getYs]
    rw [if_neg (h q (by simp))]
    exact ih (fun p hp => h p (by simp [hp]))

/-- Appending a fresh singleton entry of a key different from x leaves
lookups at x unchanged. -/
theorem getYs_append_single_ne (k x : Int) (hk : k ≠ x) (ys : List ℚ) :
    ∀ agg : List (Int × List ℚ), getYs (agg ++ [(k, ys)]) x = getYs agg x := by
  intro agg
  induction agg with
  | nil => simp [getYs, hk]
  | cons q t ih =>
    by_cases hx : q.1 = x <;> simp [getYs, hx, ih]

/-- One grouping step appends the sample to the lookup at its own key and
leaves every other lookup unchanged. -/
theorem getYs_addPair (agg : List (Int × List ℚ)) (p : Int × ℚ) (x : Int) :
    getYs (addPair agg p) x =
      if p.1 = x then getYs agg x ++ [p.2] else getYs agg x := by
  unfold addPair
  by_cases hany : agg.any (fun q => q.1 == p.1) = true
  · rw [if_pos hany]
    by_cases hx : p.1 = x
    · subst hx
      rw [getYs_map_update_self p.1 p.2 agg hany, if_pos rfl]
    · rw [getYs_map_update_ne p.1 x hx p.2 agg, if_neg hx]
  · have hfree : ∀ q ∈ agg, ¬ (q.1 == p.1) = true := any_eq_false_of_not hany
    rw [if_neg hany]
    by_cases hx : p.1 = x
    · subst hx
      rw [getYs_append_of_left_none p.1 agg [(p.1, [p.2])] hfree,
        getYs_eq_nil_of_none p.1 agg hfree, if_pos rfl]
      simp [getYs]
    · rw [if_neg hx]
      exact getYs_append_single_ne p.1 x hx [p.2] agg

/-- Folding the grouping step pools, per key, exactly the samples carried
for that key by the pair list, in order, after whatever was accumulated. -/
theorem getYs_foldl_addPair :
    ∀ (ps : List (Int × ℚ)) (agg : List (Int × List ℚ)) (x : Int),
      getYs (ps.foldl addPair agg) x = getYs agg x ++ pairsYsAt ps x := by
  intro ps
  induction ps with
  | nil => intro agg x; simp [pairsYsAt]
  | cons p t ih =>
    intro agg x
    simp only [List.foldl_cons]
    rw [ih, getYs_addPair]
    by_cases hx : p.1 = x
    · rw [if_pos hx]
      simp [pairsYsAt, List.filter_cons, hx]
    · rw [if_neg hx]
      simp [pairsYsAt, List.filter_cons, hx]

/-- The per-x sample pool of the built aggregate is the filtered flat pair
list of the buffered records. -/
theorem getYs_buildAggregate (ms : List MetricRecord) (x : Int) :
    getYs (buildAggregate ms) x = pairsYsAt (pairsOf ms) x := by
  rw [buildAggregate_eq_pairs, getYs_foldl_addPair]
  rfl

/-- Permuted record lists carry permuted flat pair lists. -/
theorem pairsOf_perm {ms1 ms2 : List MetricRecord} (h : List.Perm ms1 ms2) :
    List.Perm (pairsOf ms1) (pairsOf ms2) := by
  induction h with
  | nil => exact List.Perm.refl _
  | cons m _ ih => exact List.Perm.append_left (recordPairs m) ih
  | swap a b l =>
    show List.Perm (recordPairs b ++ (recordPairs a ++ pairsOf l))
      (recordPairs a ++ (recordPairs b ++ pairsOf l))
    rw [← List.append_assoc, ← List.append_assoc]
    exact List.Perm.append_right (pairsOf l) List.perm_append_comm
  | trans _ _ ih1 ih2 => exact ih1.trans ih2

/-- np.mean is invariant under permutation of the samples. -/
theorem listMean_perm {l1 l2 : List ℚ} (h : List.Perm l1 l2) :
    listMean l1 = listMean l2 := by
  unfold listMean
  rw [h.sum_eq, h.length_eq]

/-- The per-x mean of the flush is invariant under permutation of the
buffered records. -/
theorem meanAt_perm {ms1 ms2 : List MetricRecord} (h : List.Perm ms1 ms2) (x : Int) :
    meanAt ms1 x = meanAt ms2 x := by
  unfold meanAt
  rw [getYs_buildAggregate, getYs_buildAggregate]
  exact listMean_perm (((pairsOf_perm h).filter _).map _)

/-- The key list after one grouping step. -/
theorem aggKeys_addPair (agg : List (Int × List ℚ)) (p : Int × ℚ) :
    aggKeys (addPair agg p) =
      if agg.any (fun q => q.1 == p.1) = true then aggKeys agg
      else aggKeys agg ++ [p.1] := by
  unfold addPair aggKeys
  by_cases hany : agg.any (fun q => q.1 == p.1) = true
  · rw [if_pos hany, if_pos hany, List.map_map]
    exact map_congr_mem (fun q _ => by
      by_cases hq : q.1 = p.1 <;> simp [Function.comp, hq])
  · rw [if_neg hany, if_neg hany, List.map_append]
    rfl

/-- A grouping step preserves distinctness of the keys. -/
theorem aggKeys_nodup_addPair (agg : List (Int × List ℚ)) (p : Int × ℚ)
    (h : (aggKeys agg).Nodup) : (aggKeys (addPair agg p)).Nodup := by
  rw [aggKeys_addPair]
  by_cases hany : agg.any (fun q => q.1 == p.1) = true
  · rwa [if_pos hany]
  · rw [if_neg hany]
    rw [(List.perm_append_singleton p.1 (aggKeys agg)).nodup_iff, List.nodup_cons]
    refine ⟨?_, h⟩
    intro hmem
    obtain ⟨q, hq, hfst⟩ := List.mem_map.mp hmem
    have hfree : ∀ q ∈ agg, ¬ (q.1 == p.1) = true := any_eq_false_of_not hany
    exact hfree q hq (by simp [hfst])

/-- Folding grouping steps preserves distinctness of the keys. -/
theorem aggKeys_nodup_foldl (ps : List (Int × ℚ)) :
    ∀ agg : List (Int × List ℚ), (aggKeys agg).Nodup →
      (aggKeys (ps.foldl addPair agg)).Nodup := by
  induction ps with
  | nil => intro agg h; exact h
  | cons p t ih => intro agg h; exact ih (addPair agg p) (aggKeys_nodup_addPair agg p h)

/-- The built aggregate has pairwise-distinct keys. -/
theorem aggKeys_nodup_buildAggregate (ms : List MetricRecord) :
    (aggKeys (buildAggregate ms)).Nodup := by
  rw [buildAggregate_eq_pairs]
  exact aggKeys_nodup_foldl (pairsOf ms) [] (by simp [aggKeys])

/-- Key membership after one grouping step. -/
theorem mem_aggKeys_addPair (agg : List (Int × List ℚ)) (p : Int × ℚ) (x : Int) :
    x ∈ aggKeys (addPair agg p) ↔ x ∈ aggKeys agg ∨ x = p.1 := by
  rw [aggKeys_addPair]
  by_cases hany : agg.any (fun q => q.1 == p.1) = true
  · rw [if_pos hany]
    constructor
    · exact Or.inl
    · rintro (hx | rfl)
      · exact hx
      · obtain ⟨q, hq, hqk⟩ := List.any_eq_true.mp hany
        exact List.mem_map.mpr ⟨q, hq, by simpa using hqk⟩
  · rw [if_neg hany]
    simp

/-- Key membership after folding grouping steps. -/
theorem mem_aggKeys_foldl (ps : List (Int × ℚ)) :
    ∀ (agg : List (Int × List ℚ)) (x : Int),
      x ∈ aggKeys (ps.foldl addPair agg) ↔ x ∈ aggKeys agg ∨ x ∈ ps.map Prod.fst := by
  induction ps with
  | nil => intro agg x; simp
  | cons p t ih =>
    intro agg x
    simp only [List.foldl_cons]
    rw [ih, mem_aggKeys_addPair]
    simp only [List.map_cons, List.mem_cons]
    tauto

/-- The keys of the built aggregate are exactly the x values occurring in
the records' pairs. -/
theorem mem_aggKeys_buildAggregate (ms : List MetricRecord) (x : Int) :
    x ∈ aggKeys (buildAggregate ms) ↔ x ∈ (pairsOf ms).map Prod.fst := by
  rw [buildAggregate_eq_pairs, mem_aggKeys_foldl]
  simp [aggKeys]

/-- Permuted record lists give permuted key lists. -/
theorem aggKeys_perm {ms1 ms2 : List MetricRecord} (h : List.Perm ms1 ms2) :
    List.Perm (aggKeys (buildAggregate ms1)) (aggKeys (buildAggregate ms2)) := by
  apply List.perm_of_nodup_nodup_toFinset_eq (aggKeys_nodup_buildAggregate ms1)
    (aggKeys_nodup_buildAggregate ms2)
  ext x
  simp only [List.mem_toFinset, mem_aggKeys_buildAggregate]
  exact ((pairsOf_perm h).map Prod.fst).mem_iff

/-- With distinct keys, each aggregate entry is recovered by lookup at its
own key. -/
theorem getYs_of_mem :
    ∀ agg : List (Int × List ℚ), (aggKeys agg).Nodup →
      ∀ q ∈ agg, getYs agg q.1 = q.2 := by
  intro agg
  induction agg with
  | nil => intro _ q hq; simp at hq
  | cons a t ih =>
    intro h q hq
    have hcons : a.1 ∉ aggKeys t ∧ (aggKeys t).Nodup := by
      rw [← List.nodup_cons]
      simpa [aggKeys] using h
    rw [List.mem_cons] at hq
    rcases hq with rfl | hq
    · simp [getYs]
    · have ha : ¬ (a.1 == q.1) = true := by
        intro hc
        have heq : a.1 = q.1 := by simpa using hc
        exact hcons.1 (heq ▸ List.mem_map.mpr ⟨q, hq, rfl⟩)
      simp only [getYs]
      rw [if_neg ha]
      exact ih hcons.2 q hq

/-- The per-x means of the flushed aggregate, listed over its keys. -/
theorem aggMeans_snd_eq_keys_map (ms : List MetricRecord) :
    (aggMeans ms).map Prod.snd =
      (aggKeys (buildAggregate ms)).map (fun x => meanAt ms x) := by
  unfold aggMeans aggKeys meanAt
  rw [List.map_map, List.map_map]
  exact map_congr_mem (fun q hq => by
    have hg := getYs_of_mem (buildAggregate ms) (aggKeys_nodup_buildAggregate ms) q hq
    simp [Function.comp, hg])

/-- The overall flushed average is invariant under permutation of the
buffered records. -/
theorem metricsAvg_perm {ms1 ms2 : List MetricRecord} (h : List.Perm ms1 ms2) :
    metricsAvg ms1 = metricsAvg ms2 := by
  unfold metricsAvg
  simp only [avgAccum_eq]
  have hk := aggKeys_perm h
  have hsum : ((aggMeans ms1).map Prod.snd).sum = ((aggMeans ms2).map Prod.snd).sum := by
    rw [aggMeans_snd_eq_keys_map, aggMeans_snd_eq_keys_map]
    rw [map_congr_mem (fun x _ => meanAt_perm h x)]
    exact (hk.map (fun x => meanAt ms2 x)).sum_eq
  have hlen : (aggMeans ms1).length = (aggMeans ms2).length := by
    unfold aggMeans
    rw [List.length_map, List.length_map]
    simpa [aggKeys] using hk.length_eq
  rw [hsum, hlen]

/-- Claim C9: the aggregate computed at flush is order-insensitive: for any
permutation of the buffered record list of a metric name, the per-x mean
assigned to each x value and the overall average (the "_avg" value) are
unchanged. -/
theorem claim_C9_flush_order_insensitive (ms1 ms2 : List MetricRecord)
    (h : List.Perm ms1 ms2) :
    (∀ x : Int, meanAt ms1 x = meanAt ms2 x) ∧ metricsAvg ms1 = metricsAvg ms2 :=
  ⟨meanAt_perm h, metricsAvg_perm h⟩

/-- Witness for claim C9: swapping the two example records changes neither
the per-x mean at 50 nor the overall average. -/
theorem claim_C9_witness :
    List.Perm [exampleRecord1, exampleRecord2] [exampleRecord2, exampleRecord1]
    ∧ meanAt [exampleRecord1, exampleRecord2] 50 = meanAt [exampleRecord2, exampleRecord1] 50
    ∧ metricsAvg [exampleRecord1, exampleRecord2] =
        metricsAvg [exampleRecord2, exampleRecord1] :=
  ⟨List.Perm.swap exampleRecord2 exampleRecord1 [],
   (claim_C9_flush_order_insensitive [exampleRecord1, exampleRecord2]
     [exampleRecord2, exampleRecord1]
     (List.Perm.swap exampleRecord2 exampleRecord1 [])).1 50,
   (claim_C9_flush_order_insensitive [exampleRecord1, exampleRecord2]
     [exampleRecord2, exampleRecord1]
     (List.Perm.swap exampleRecord2 exampleRecord1 [])).2⟩

/-- Witness for claim C8, on a directory listing holding one supported
file, one file with the unsupported type tag "heatmap", and another
supported file: the unsupported file yields exactly one warning and the
two sibling files are still dispatched to the network-size handler. -/
theorem claim_C8_witness :
    ((⟨"bad.yaml", true, ⟨"heatmap", "PDR", [], [], "", ""⟩⟩ : MetricsFile).isFile = true)
    ∧ strEndsWith (pathJoin "mdir" "bad.yaml") ".yaml" = true
    ∧ dictGet metric_type_handling
        (⟨"bad.yaml", true, ⟨"heatmap", "PDR", [], [], "", ""⟩⟩ : MetricsFile).content.mtype = none
    ∧ default_parse_metrics "mdir" true
        ([⟨"a.yaml", true, exampleRecord1⟩]
          ++ (⟨"bad.yaml", true, ⟨"heatmap", "PDR", [], [], "", ""⟩⟩ : MetricsFile)
            :: [⟨"b.yaml", true, exampleRecord2⟩]) =
      default_parse_metrics "mdir" true [⟨"a.yaml", true, exampleRecord1⟩]
        ++ ParseEvent.warnUnsupported (pathJoin "mdir" "bad.yaml") "heatmap"
          :: default_parse_metrics "mdir" true [⟨"b.yaml", true, exampleRecord2⟩] :=
  ⟨rfl, by decide, by decide,
   claim_C8_unsupported_metric_type_skipped "mdir" true
     [⟨"a.yaml", true, exampleRecord1⟩] [⟨"b.yaml", true, exampleRecord2⟩]
     ⟨"bad.yaml", true, ⟨"heatmap", "PDR", [], [], "", ""⟩⟩ rfl (by decide) (by decide)⟩
